import Mathlib

/-!
Verification of the in-memory contact directory (`src/main.py`):
`Field` / `Name` / `Phone` value wrappers, `Record` (a name plus an
ordered list of phones) and `AddressBook` (an insertion-ordered mapping
from name string to record).

The Python code is shallowly embedded:
* exceptions become an explicit error type `Err`; a mutating method that
  can raise is embedded as a function returning the state after the call
  paired with `Option Err` (Python objects keep their pre-raise state
  when an exception propagates, and in this code every raise happens
  before any mutation — the embedding mirrors the statement order of the
  source);
* the Python `dict` underlying `AddressBook` (via `UserDict`) is an
  insertion-ordered association list: assignment to an existing key
  replaces the value in place, a new key is appended at the end;
* Python's `re.match(r"^\d{10}$", value)` is embedded operationally:
  `\d` matches any Unicode decimal digit (category Nd) because the
  pattern is a `str` pattern, and `$` matches at the end of the string
  or just before a single newline that ends the string;
* Python's `str.strip()` removes the characters for which `str.isspace()`
  holds from both ends.
-/

namespace AB

/-- The three error conditions of the system; in the source they are all
`ValueError` raises, distinguished by message:
"Phone number must be 10 digits", "Phone number not found",
"Record not found". -/
inductive Err where
  | invalidPhoneFormat
  | phoneNotFound
  | recordNotFound
deriving DecidableEq

/-- `Field.__init__`: the base wrapper holding one value.  In every use in
this program the value is a string. `Name` and `Phone` add no data. -/
structure Field where
  value : String
deriving DecidableEq

/-- `Name` is a `Field` with no extra validation (class `Name(Field)`). -/
abbrev Name := Field

/-- `Phone` is a `Field`; validation happens in its constructor. -/
abbrev Phone := Field

/-- `Field.__str__`: `str(self.value)`; the value is a string here. -/
def Field.str (f : Field) : String := f.value

/-- Unicode decimal digits (general category Nd): what Python's `\d`
matches in a `str` pattern. Listed by codepoint range. -/
def isPyDigit (c : Char) : Bool :=
  let n := c.toNat
  (0x30 ≤ n && n ≤ 0x39) ||        -- ASCII
  (0x660 ≤ n && n ≤ 0x669) ||      -- Arabic-Indic
  (0x6F0 ≤ n && n ≤ 0x6F9) ||      -- Extended Arabic-Indic
  (0x7C0 ≤ n && n ≤ 0x7C9) ||      -- NKo
  (0x966 ≤ n && n ≤ 0x96F) ||      -- Devanagari
  (0x9E6 ≤ n && n ≤ 0x9EF) ||      -- Bengali
  (0xA66 ≤ n && n ≤ 0xA6F) ||      -- Gurmukhi
  (0xAE6 ≤ n && n ≤ 0xAEF) ||      -- Gujarati
  (0xB66 ≤ n && n ≤ 0xB6F) ||      -- Oriya
  (0xBE6 ≤ n && n ≤ 0xBEF) ||      -- Tamil
  (0xC66 ≤ n && n ≤ 0xC6F) ||      -- Telugu
  (0xCE6 ≤ n && n ≤ 0xCEF) ||      -- Kannada
  (0xD66 ≤ n && n ≤ 0xD6F) ||      -- Malayalam
  (0xDE6 ≤ n && n ≤ 0xDEF) ||      -- Sinhala
  (0xE50 ≤ n && n ≤ 0xE59) ||      -- Thai
  (0xED0 ≤ n && n ≤ 0xED9) ||      -- Lao
  (0xF20 ≤ n && n ≤ 0xF29) ||      -- Tibetan
  (0x1040 ≤ n && n ≤ 0x1049) ||    -- Myanmar
  (0x1090 ≤ n && n ≤ 0x1099) ||    -- Myanmar Shan
  (0x17E0 ≤ n && n ≤ 0x17E9) ||    -- Khmer
  (0x1810 ≤ n && n ≤ 0x1819) ||    -- Mongolian
  (0x1946 ≤ n && n ≤ 0x194F) ||    -- Limbu
  (0x19D0 ≤ n && n ≤ 0x19D9) ||    -- New Tai Lue
  (0x1A80 ≤ n && n ≤ 0x1A89) ||    -- Tai Tham Hora
  (0x1A90 ≤ n && n ≤ 0x1A99) ||    -- Tai Tham Tham
  (0x1B50 ≤ n && n ≤ 0x1B59) ||    -- Balinese
  (0x1BB0 ≤ n && n ≤ 0x1BB9) ||    -- Sundanese
  (0x1C40 ≤ n && n ≤ 0x1C49) ||    -- Lepcha
  (0x1C50 ≤ n && n ≤ 0x1C59) ||    -- Ol Chiki
  (0xA620 ≤ n && n ≤ 0xA629) ||    -- Vai
  (0xA8D0 ≤ n && n ≤ 0xA8D9) ||    -- Saurashtra
  (0xA900 ≤ n && n ≤ 0xA909) ||    -- Kayah Li
  (0xA9D0 ≤ n && n ≤ 0xA9D9) ||    -- Javanese
  (0xA9F0 ≤ n && n ≤ 0xA9F9) ||    -- Myanmar Tai Laing
  (0xAA50 ≤ n && n ≤ 0xAA59) ||    -- Cham
  (0xABF0 ≤ n && n ≤ 0xABF9) ||    -- Meetei Mayek
  (0xFF10 ≤ n && n ≤ 0xFF19) ||    -- Fullwidth
  (0x104A0 ≤ n && n ≤ 0x104A9) ||  -- Osmanya
  (0x10D30 ≤ n && n ≤ 0x10D39) ||  -- Hanifi Rohingya
  (0x11066 ≤ n && n ≤ 0x1106F) ||  -- Brahmi
  (0x110F0 ≤ n && n ≤ 0x110F9) ||  -- Sora Sompeng
  (0x11136 ≤ n && n ≤ 0x1113F) ||  -- Chakma
  (0x111D0 ≤ n && n ≤ 0x111D9) ||  -- Sharada
  (0x112F0 ≤ n && n ≤ 0x112F9) ||  -- Khudawadi
  (0x11450 ≤ n && n ≤ 0x11459) ||  -- Newa
  (0x114D0 ≤ n && n ≤ 0x114D9) ||  -- Tirhuta
  (0x11650 ≤ n && n ≤ 0x11659) ||  -- Modi
  (0x116C0 ≤ n && n ≤ 0x116C9) ||  -- Takri
  (0x11730 ≤ n && n ≤ 0x11739) ||  -- Ahom
  (0x118E0 ≤ n && n ≤ 0x118E9) ||  -- Warang Citi
  (0x11950 ≤ n && n ≤ 0x11959) ||  -- Dives Akuru
  (0x11C50 ≤ n && n ≤ 0x11C59) ||  -- Bhaiksuki
  (0x11D50 ≤ n && n ≤ 0x11D59) ||  -- Masaram Gondi
  (0x11DA0 ≤ n && n ≤ 0x11DA9) ||  -- Gunjala Gondi
  (0x11F50 ≤ n && n ≤ 0x11F59) ||  -- Kawi
  (0x16A60 ≤ n && n ≤ 0x16A69) ||  -- Mro
  (0x16AC0 ≤ n && n ≤ 0x16AC9) ||  -- Tangsa
  (0x16B50 ≤ n && n ≤ 0x16B59) ||  -- Pahawh Hmong
  (0x1D7CE ≤ n && n ≤ 0x1D7FF) ||  -- Mathematical digits
  (0x1E140 ≤ n && n ≤ 0x1E149) ||  -- Nyiakeng Puachue Hmong
  (0x1E2F0 ≤ n && n ≤ 0x1E2F9) ||  -- Wancho
  (0x1E4F0 ≤ n && n ≤ 0x1E4F9) ||  -- Nag Mundari
  (0x1E950 ≤ n && n ≤ 0x1E959) ||  -- Adlam
  (0x1FBF0 ≤ n && n ≤ 0x1FBF9)     -- Legacy computing digits

/-- The characters Python's `str.strip()` removes (those for which
`str.isspace()` is true): ASCII whitespace and controls 0x1C-0x1F,
plus the Unicode space separators and line/paragraph separators. -/
def isPySpace (c : Char) : Bool :=
  let n := c.toNat
  (0x9 ≤ n && n ≤ 0xD) ||
  n = 0x20 ||
  (0x1C ≤ n && n ≤ 0x1F) ||
  n = 0x85 || n = 0xA0 || n = 0x1680 ||
  (0x2000 ≤ n && n ≤ 0x200A) ||
  n = 0x2028 || n = 0x2029 || n = 0x202F || n = 0x205F || n = 0x3000

/-- Both-ends trim of a character list, used for `str.strip()`. -/
def stripChars (l : List Char) : List Char :=
  ((l.dropWhile isPySpace).reverse.dropWhile isPySpace).reverse

/-- Python `str.strip()` with no argument. -/
def pyStrip (s : String) : String := ⟨stripChars s.data⟩

/-- Operational reading of `re.match(r"^\d{10}$", s)` (a `str` pattern,
no flags): consume `k` characters matched by `\d`, then `$` succeeds at
the end of the string or just before a newline that ends the string. -/
def matchDigitsThenEnd : Nat → List Char → Bool
  | 0, rest => rest = [] || rest = ['\n']
  | _ + 1, [] => false
  | k + 1, c :: rest => isPyDigit c && matchDigitsThenEnd k rest

/-- Whether `re.match(r"^\d{10}$", s)` finds a match. -/
def phoneRegexMatch (s : String) : Bool := matchDigitsThenEnd 10 s.data

/-- `Phone.__init__`: validate against `^\d{10}$`; on failure raise
(`InvalidPhoneFormat`), on success store the value via `Field.__init__`. -/
def Phone.init (value : String) : Except Err Phone :=
  if phoneRegexMatch value then Except.ok ⟨value⟩
  else Except.error Err.invalidPhoneFormat

/-- Declarative phone-format condition, stated from the (amended) spec
wording rather than from the matcher: the string is exactly 10 Unicode
decimal digits, or 10 Unicode decimal digits followed by one trailing
newline. It is compared with the source-derived `Phone.init` in the C1
theorem. -/
def tenDigitSpec (s : String) : Prop :=
  (s.data.length = 10 ∧ ∀ c ∈ s.data, isPyDigit c = true) ∨
  (s.data.length = 11 ∧ (∀ c ∈ s.data.take 10, isPyDigit c = true) ∧
    s.data.drop 10 = ['\n'])

/-- `Record.__init__`: a record owns one name and an ordered list of
phones. The name is stored trimmed (`Name(name.strip())`) and the phone
list starts empty. -/
structure Record where
  name : Name
  phones : List Phone
deriving DecidableEq

/-- `Record(name)`: `self.name = Name(name.strip())`, `self.phones = []`. -/
def Record.init (name : String) : Record := ⟨⟨pyStrip name⟩, []⟩

/-- `Record.add_phone`: `self.phones.append(Phone(phone))`. `Phone(phone)`
is evaluated first; when it raises, the append never runs and the record
is returned unchanged together with the raised error. -/
def Record.add_phone (r : Record) (phone : String) : Record × Option Err :=
  match Phone.init phone with
  | Except.error e => (r, some e)
  | Except.ok p => ({ r with phones := r.phones ++ [p] }, none)

/-- `Record.remove_phone`: rebind `self.phones` to
`[p for p in self.phones if p.value != phone]`. Never raises. -/
def Record.remove_phone (r : Record) (phone : String) : Record :=
  { r with phones := r.phones.filter (fun p => p.value ≠ phone) }

/-- The loop of `Record.edit_phone`: walk the list; at the first entry
whose value equals `old`, set `p.value = new` and return; if the loop
finishes, raise (`PhoneNotFound`). Entries before the match are not
touched, and on the error path nothing was mutated. -/
def editLoop (old new : String) : List Phone → List Phone × Option Err
  | [] => ([], some Err.phoneNotFound)
  | p :: rest =>
    if p.value = old then (⟨new⟩ :: rest, none)
    else ((p :: (editLoop old new rest).1), (editLoop old new rest).2)

/-- `Record.edit_phone(old_phone, new_phone)`. The new value is stored
without any format validation. -/
def Record.edit_phone (r : Record) (old new : String) : Record × Option Err :=
  ({ r with phones := (editLoop old new r.phones).1 },
   (editLoop old new r.phones).2)

/-- `Record.find_phone`: first entry whose value equals `phone`, else
`None`. -/
def Record.find_phone (r : Record) (phone : String) : Option Phone :=
  r.phones.find? (fun p => p.value = phone)

/-- `Record.__str__`:
`f"Contact name: {self.name.value}, phones: {...}"` with the phone
values joined by `"; "`. -/
def Record.render (r : Record) : String :=
  "Contact name: " ++ r.name.value ++ ", phones: " ++
    String.intercalate "; " (r.phones.map Field.value)

/-- `AddressBook(UserDict)`: `self.data` is an insertion-ordered mapping
from name string to record, embedded as an association list in insertion
order with pairwise-distinct keys (a Python dict cannot hold a duplicate
key). -/
structure AddressBook where
  data : List (String × Record)
deriving DecidableEq

/-- Python dict assignment `d[k] = v`: replace the value at `k` in place
if `k` is present, else append the new pair at the end. -/
def dictInsert (k : String) (v : Record) : List (String × Record) → List (String × Record)
  | [] => [(k, v)]
  | (k', v') :: rest =>
    if k' = k then (k, v) :: rest else (k', v') :: dictInsert k v rest

/-- Python `del d[k]`: drop the entry with key `k` (the keys are
pairwise distinct, so at most one entry is dropped). -/
def dictErase (k : String) (l : List (String × Record)) : List (String × Record) :=
  l.filter (fun kv => kv.1 ≠ k)

/-- `AddressBook.add_record`: `self.data[record.name.value] = record`.
Never raises; silently overwrites an existing entry of the same name. -/
def AddressBook.add_record (b : AddressBook) (record : Record) : AddressBook :=
  ⟨dictInsert record.name.value record b.data⟩

/-- `AddressBook.find`: `self.data.get(name.strip())` — the argument is
trimmed before lookup; `None` on a miss, no error path, no mutation. -/
def AddressBook.find (b : AddressBook) (name : String) : Option Record :=
  (b.data.find? (fun kv => kv.1 = pyStrip name)).map Prod.snd

/-- `AddressBook.delete`: if `name in self.data` (exact key, no
trimming) then `del self.data[name]`, else raise (`RecordNotFound`). -/
def AddressBook.delete (b : AddressBook) (name : String) : AddressBook × Option Err :=
  if b.data.any (fun kv => kv.1 = name) then (⟨dictErase name b.data⟩, none)
  else (b, some Err.recordNotFound)

/-- The records the public `Record` API can produce: constructed by
`Record(name)` and then mutated only through `add_phone`,
`remove_phone` and `edit_phone` (`find_phone` does not mutate). -/
inductive RecordReachable : Record → Prop where
  | init (name : String) : RecordReachable (Record.init name)
  | addPhone {r : Record} (phone : String) :
      RecordReachable r → RecordReachable (r.add_phone phone).1
  | removePhone {r : Record} (phone : String) :
      RecordReachable r → RecordReachable (r.remove_phone phone)
  | editPhone {r : Record} (old new : String) :
      RecordReachable r → RecordReachable (r.edit_phone old new).1

/-- The address-book states reachable from the empty book through the
public API `add_record` and `delete` with API-built records (`find`
does not mutate, so it adds no transition). -/
inductive BookReachable : AddressBook → Prop where
  | empty : BookReachable ⟨[]⟩
  | addRecord {b : AddressBook} {r : Record} :
      BookReachable b → RecordReachable r → BookReachable (b.add_record r)
  | delete {b : AddressBook} (name : String) :
      BookReachable b → BookReachable (b.delete name).1

/-! ### Lemmas about the edit loop -/

theorem editLoop_not_found {old new : String} {ps : List Phone}
    (h : ∀ p ∈ ps, p.value ≠ old) :
    editLoop old new ps = (ps, some Err.phoneNotFound) := by
  induction ps with
  | nil => rfl
  | cons p rest ih =>
    have hp : p.value ≠ old := h p (List.mem_cons_self p rest)
    have ih' := ih (fun q hq => h q (List.mem_cons_of_mem p hq))
    simp [editLoop, hp, ih']

theorem editLoop_found {old new : String} (l1 : List Phone) (p : Phone)
    (l2 : List Phone) (hp : p.value = old) (h1 : ∀ q ∈ l1, q.value ≠ old) :
    editLoop old new (l1 ++ p :: l2) = (l1 ++ ⟨new⟩ :: l2, none) := by
  induction l1 with
  | nil => simp [editLoop, hp]
  | cons q rest ih =>
    have hq : q.value ≠ old := h1 q (List.mem_cons_self q rest)
    have ih' := ih (fun x hx => h1 x (List.mem_cons_of_mem q hx))
    simp [editLoop, hq, ih']

theorem editLoop_err {old new : String} {ps : List Phone} {e : Err}
    (h : (editLoop old new ps).2 = some e) :
    (editLoop old new ps).1 = ps ∧ e = Err.phoneNotFound := by
  induction ps with
  | nil =>
    simp [editLoop] at h
    simp [editLoop, h]
  | cons p rest ih =>
    by_cases hp : p.value = old
    · simp [editLoop, hp] at h
    · simp only [editLoop, if_neg hp] at h ⊢
      obtain ⟨h1, h2⟩ := ih h
      simp [h1, h2]

theorem editLoop_hit {old new : String} {ps : List Phone}
    (h : ∃ p ∈ ps, p.value = old) :
    (editLoop old new ps).2 = none ∧
    (⟨new⟩ : Phone) ∈ (editLoop old new ps).1 ∧
    (editLoop old new ps).1.length = ps.length := by
  induction ps with
  | nil => simp at h
  | cons p rest ih =>
    by_cases hp : p.value = old
    · simp [editLoop, hp]
    · have hrest : ∃ q ∈ rest, q.value = old := by
        rcases h with ⟨q, hq, hv⟩
        rcases List.mem_cons.mp hq with he | hm
        · exact absurd (he ▸ hv) hp
        · exact ⟨q, hm, hv⟩
      obtain ⟨h1, h2, h3⟩ := ih hrest
      simp [editLoop, hp, h1, h2, h3]

/-! ### Claim theorems -/

/-- C2: `edit_phone(old_phone, new_phone)` replaces the value of the
first phone entry equal to `old_phone` with `new_phone`, leaves every
other entry and the sequence length unchanged (only the first match is
edited when duplicates exist), and raises `PhoneNotFound` exactly when
no entry equals `old_phone`. -/
theorem edit_phone_first_match (r : Record) (old new : String) :
    ((∀ p ∈ r.phones, p.value ≠ old) →
      r.edit_phone old new = (r, some Err.phoneNotFound)) ∧
    (∀ l1 p l2, r.phones = l1 ++ p :: l2 → p.value = old →
      (∀ q ∈ l1, q.value ≠ old) →
      r.edit_phone old new = (⟨r.name, l1 ++ ⟨new⟩ :: l2⟩, none)) := by
  constructor
  · intro h
    simp [Record.edit_phone, editLoop_not_found h]
  · intro l1 p l2 hsplit hp h1
    simp [Record.edit_phone, hsplit, editLoop_found l1 p l2 hp h1]

/-- Witness for C2: on a record holding `"1234567890"` twice, editing
`"1234567890"` to `"0987654321"` rewrites only the first copy; editing a
value that is absent raises `PhoneNotFound` and changes nothing. -/
theorem edit_phone_first_match_witness :
    Record.edit_phone ⟨⟨"A"⟩, [⟨"1234567890"⟩, ⟨"1234567890"⟩]⟩
        "1234567890" "0987654321"
      = (⟨⟨"A"⟩, [⟨"0987654321"⟩, ⟨"1234567890"⟩]⟩, none) ∧
    Record.edit_phone (Record.init "A") "1234567890" "0987654321"
      = (Record.init "A", some Err.phoneNotFound) := by
  constructor
  · exact (edit_phone_first_match ⟨⟨"A"⟩, [⟨"1234567890"⟩, ⟨"1234567890"⟩]⟩
      "1234567890" "0987654321").2 [] ⟨"1234567890"⟩ [⟨"1234567890"⟩]
      rfl rfl (by simp)
  · exact (edit_phone_first_match (Record.init "A") "1234567890"
      "0987654321").1 (by simp [Record.init])

/-- C3: on a record containing an entry equal to `old`, `edit_phone`
succeeds for every `new` string — the stored value is not validated, so
a phone entry can afterwards hold a value that does not satisfy the
10-digit pattern (see the witness, which stores `"abc"`). -/
theorem edit_phone_no_validation (r : Record) (old new : String)
    (h : ∃ p ∈ r.phones, p.value = old) :
    (r.edit_phone old new).2 = none ∧
    (⟨new⟩ : Phone) ∈ (r.edit_phone old new).1.phones ∧
    (r.edit_phone old new).1.phones.length = r.phones.length := by
  obtain ⟨h1, h2, h3⟩ := @editLoop_hit old new r.phones h
  exact ⟨h1, h2, h3⟩

/-- Witness for C3: `"abc"` does not match the phone pattern, yet
editing `"1234567890"` to `"abc"` succeeds and stores `"abc"`. -/
theorem edit_phone_no_validation_witness :
    phoneRegexMatch "abc" = false ∧
    (Record.edit_phone ⟨⟨"A"⟩, [⟨"1234567890"⟩]⟩ "1234567890" "abc").2
      = none ∧
    (⟨"abc"⟩ : Phone) ∈
      (Record.edit_phone ⟨⟨"A"⟩, [⟨"1234567890"⟩]⟩ "1234567890" "abc").1.phones := by
  refine ⟨by decide, ?_, ?_⟩
  · exact (edit_phone_no_validation ⟨⟨"A"⟩, [⟨"1234567890"⟩]⟩ "1234567890"
      "abc" ⟨⟨"1234567890"⟩, by simp, rfl⟩).1
  · exact (edit_phone_no_validation ⟨⟨"A"⟩, [⟨"1234567890"⟩]⟩ "1234567890"
      "abc" ⟨⟨"1234567890"⟩, by simp, rfl⟩).2.1

/-- C4: `remove_phone(phone)` removes all phone entries whose value
equals `phone` (entry counts: matching entries go to zero, every other
entry keeps its multiplicity), keeps the remaining entries in their
relative order (sublist), leaves the name alone, and never raises — in
particular it is a silent no-op when nothing matches. -/
theorem remove_phone_spec (r : Record) (phone : String) :
    (∀ q ∈ (r.remove_phone phone).phones, q.value ≠ phone) ∧
    (r.remove_phone phone).phones.Sublist r.phones ∧
    (∀ q : Phone, (r.remove_phone phone).phones.count q =
      if q.value = phone then 0 else r.phones.count q) ∧
    (r.remove_phone phone).name = r.name ∧
    ((∀ q ∈ r.phones, q.value ≠ phone) → r.remove_phone phone = r) := by
  refine ⟨?_, ?_, ?_, rfl, ?_⟩
  · intro q hq
    simpa using (List.mem_filter.mp hq).2
  · exact List.filter_sublist _
  · intro q
    by_cases hq : q.value = phone
    · rw [if_pos hq, List.count_eq_zero]
      intro hmem
      exact absurd hq (by simpa using (List.mem_filter.mp hmem).2)
    · rw [if_neg hq]
      exact List.count_filter (by simpa using hq)
  · intro h
    have hf : r.phones.filter (fun p => p.value ≠ phone) = r.phones :=
      List.filter_eq_self.mpr (fun a ha => by simpa using h a ha)
    simp only [Record.remove_phone]
    rw [hf]

/-- Witness for C4: removing an absent value is a no-op, and removing a
present value drops its count to zero. -/
theorem remove_phone_spec_witness :
    Record.remove_phone ⟨⟨"A"⟩, [⟨"1111111111"⟩]⟩ "2222222222"
      = ⟨⟨"A"⟩, [⟨"1111111111"⟩]⟩ ∧
    (Record.remove_phone ⟨⟨"A"⟩, [⟨"1111111111"⟩]⟩ "1111111111").phones.count
      ⟨"1111111111"⟩ = 0 := by
  constructor
  · exact (remove_phone_spec ⟨⟨"A"⟩, [⟨"1111111111"⟩]⟩ "2222222222").2.2.2.2
      (by decide)
  · have h := (remove_phone_spec ⟨⟨"A"⟩, [⟨"1111111111"⟩]⟩
      "1111111111").2.2.1 ⟨"1111111111"⟩
    simpa using h

/-- C5: whenever `add_phone`, `edit_phone` or `AddressBook.delete`
raises, the raise happens before any mutation: the record (resp. the
book) after the call is exactly the one before it, and the raised error
is `InvalidPhoneFormat`, `PhoneNotFound`, `RecordNotFound`
respectively. -/
theorem ops_atomic (r : Record) (ph old new : String) (b : AddressBook)
    (nm : String) :
    (∀ e, (r.add_phone ph).2 = some e →
      (r.add_phone ph).1 = r ∧ e = Err.invalidPhoneFormat) ∧
    (∀ e, (r.edit_phone old new).2 = some e →
      (r.edit_phone old new).1 = r ∧ e = Err.phoneNotFound) ∧
    (∀ e, (b.delete nm).2 = some e →
      (b.delete nm).1 = b ∧ e = Err.recordNotFound) := by
  refine ⟨?_, ?_, ?_⟩
  · intro e h
    by_cases hm : phoneRegexMatch ph
    · simp [Record.add_phone, Phone.init, hm] at h
    · simp [Record.add_phone, Phone.init, hm] at h ⊢
      exact h.symm
  · intro e h
    obtain ⟨h1, h2⟩ := editLoop_err (h : (editLoop old new r.phones).2 = some e)
    constructor
    · simp [Record.edit_phone, h1]
    · exact h2
  · intro e h
    by_cases hc : b.data.any (fun kv => kv.1 = nm)
    · simp [AddressBook.delete, hc] at h
    · simp [AddressBook.delete, hc] at h ⊢
      exact h.symm

/-- Witness for C5: an invalid `add_phone`, an `edit_phone` on an empty
phone list and a `delete` on an empty book all raise and all leave their
state untouched. -/
theorem ops_atomic_witness :
    ((Record.init "A").add_phone "x").1 = Record.init "A" ∧
    ((Record.init "A").edit_phone "5" "6").1 = Record.init "A" ∧
    ((AddressBook.mk []).delete "Bob").1 = AddressBook.mk [] := by
  refine ⟨?_, ?_, ?_⟩
  · exact ((ops_atomic (Record.init "A") "x" "5" "6" ⟨[]⟩ "Bob").1
      Err.invalidPhoneFormat (by decide)).1
  · exact ((ops_atomic (Record.init "A") "x" "5" "6" ⟨[]⟩ "Bob").2.1
      Err.phoneNotFound (by decide)).1
  · exact ((ops_atomic (Record.init "A") "x" "5" "6" ⟨[]⟩ "Bob").2.2
      Err.recordNotFound (by decide)).1

/-! ### Lemmas about the dictionary embedding -/

theorem find?_dictInsert (k : String) (v : Record) (l : List (String × Record)) :
    (dictInsert k v l).find? (fun kv => kv.1 = k) = some (k, v) := by
  induction l with
  | nil => simp [dictInsert]
  | cons kv rest ih =>
    obtain ⟨k', v'⟩ := kv
    by_cases hk : k' = k
    · simp [dictInsert, hk]
    · simp [dictInsert, hk, ih]

theorem keys_dictInsert (k : String) (v : Record) (l : List (String × Record)) :
    (dictInsert k v l).map Prod.fst =
      if k ∈ l.map Prod.fst then l.map Prod.fst
      else l.map Prod.fst ++ [k] := by
  induction l with
  | nil => simp [dictInsert]
  | cons kv rest ih =>
    obtain ⟨k', v'⟩ := kv
    by_cases hk : k' = k
    · simp [dictInsert, hk]
    · by_cases hmem : k ∈ rest.map Prod.fst
      · simp [dictInsert, hk, ih, hmem, Ne.symm hk]
      · simp [dictInsert, hk, ih, hmem, Ne.symm hk]

theorem nodupKeys_dictInsert {l : List (String × Record)} (k : String)
    (v : Record) (h : (l.map Prod.fst).Nodup) :
    ((dictInsert k v l).map Prod.fst).Nodup := by
  rw [keys_dictInsert]
  by_cases hmem : k ∈ l.map Prod.fst
  · simpa [hmem] using h
  · rw [if_neg hmem]
    refine List.Nodup.append h (List.nodup_singleton k) ?_
    intro a ha hb
    rw [List.mem_singleton.mp hb] at ha
    exact hmem ha

theorem countP_key_not_mem {l : List (String × Record)} {k : String}
    (h : k ∉ l.map Prod.fst) :
    l.countP (fun kv => kv.1 = k) = 0 := by
  rw [List.countP_eq_zero]
  intro kv hm
  simp only [decide_eq_true_eq]
  intro he
  exact h (he ▸ List.mem_map_of_mem Prod.fst hm)

theorem countP_dictInsert {l : List (String × Record)} (k : String)
    (v : Record) (h : (l.map Prod.fst).Nodup) :
    (dictInsert k v l).countP (fun kv => kv.1 = k) = 1 := by
  induction l with
  | nil => simp [dictInsert]
  | cons kv rest ih =>
    obtain ⟨k', v'⟩ := kv
    rw [List.map_cons] at h
    have h1 : k' ∉ rest.map Prod.fst := (List.nodup_cons.mp h).1
    have h2 : (rest.map Prod.fst).Nodup := (List.nodup_cons.mp h).2
    by_cases hk : k' = k
    · subst hk
      simp [dictInsert, List.countP_cons, countP_key_not_mem h1]
    · simp [dictInsert, hk, List.countP_cons, ih h2]

theorem mem_dictInsert_key {k : String} {v : Record}
    {l : List (String × Record)} {kv : String × Record}
    (h : (l.map Prod.fst).Nodup) (hm : kv ∈ dictInsert k v l)
    (hkey : kv.1 = k) : kv = (k, v) := by
  induction l with
  | nil =>
    simpa [dictInsert] using hm
  | cons kv' rest ih =>
    obtain ⟨k', v'⟩ := kv'
    rw [List.map_cons] at h
    have h1 : k' ∉ rest.map Prod.fst := (List.nodup_cons.mp h).1
    have h2 : (rest.map Prod.fst).Nodup := (List.nodup_cons.mp h).2
    by_cases hk : k' = k
    · subst hk
      rcases List.mem_cons.mp (by simpa [dictInsert] using hm) with he | hrest
      · exact he
      · exact absurd (hkey ▸ List.mem_map_of_mem Prod.fst hrest) h1
    · rcases List.mem_cons.mp (by simpa [dictInsert, hk] using hm) with he | hrest
      · rw [he] at hkey
        exact absurd hkey hk
      · exact ih h2 hrest

theorem mem_dictInsert {k : String} {v : Record} {l : List (String × Record)}
    {kv : String × Record} (hm : kv ∈ dictInsert k v l) :
    kv = (k, v) ∨ kv ∈ l := by
  induction l with
  | nil => simpa [dictInsert] using hm
  | cons kv' rest ih =>
    obtain ⟨k', v'⟩ := kv'
    by_cases hk : k' = k
    · rcases List.mem_cons.mp (by simpa [dictInsert, hk] using hm) with he | hrest
      · exact Or.inl he
      · exact Or.inr (List.mem_cons_of_mem _ hrest)
    · rcases List.mem_cons.mp (by simpa [dictInsert, hk] using hm) with he | hrest
      · exact Or.inr (he ▸ List.mem_cons_self _ _)
      · rcases ih hrest with h | h
        · exact Or.inl h
        · exact Or.inr (List.mem_cons_of_mem _ h)

/-- C6: `delete(name)` uses `name` as an exact key — no trimming: it
raises `RecordNotFound` exactly when no entry has key `name`, and
otherwise removes that entry while keeping every other entry in order.
On the empty book it therefore always raises. -/
theorem delete_exact_key (b : AddressBook) (name : String) :
    ((¬ ∃ kv ∈ b.data, kv.1 = name) →
      b.delete name = (b, some Err.recordNotFound)) ∧
    ((∃ kv ∈ b.data, kv.1 = name) →
      (b.delete name).2 = none ∧
      (b.delete name).1.data = b.data.filter (fun kv => kv.1 ≠ name)) := by
  constructor
  · intro h
    have hc : (b.data.any fun kv => kv.1 = name) = false := by
      rw [List.any_eq_false]
      intro kv hm he
      exact h ⟨kv, hm, by simpa using he⟩
    simp [AddressBook.delete, hc]
  · intro h
    have hc : (b.data.any fun kv => kv.1 = name) = true := by
      rw [List.any_eq_true]
      rcases h with ⟨kv, hm, he⟩
      exact ⟨kv, hm, by simpa using he⟩
    simp [AddressBook.delete, hc, dictErase]

/-- Witness for C6: on a book whose only key is `"Alice"`, deleting
`" Alice "` raises (`delete` does not trim, even though `find` would
have found it), deleting `"Alice"` succeeds, and deleting from the
empty book raises. -/
theorem delete_exact_key_witness :
    (AddressBook.mk [("Alice", Record.init "Alice")]).delete " Alice "
      = (AddressBook.mk [("Alice", Record.init "Alice")],
         some Err.recordNotFound) ∧
    ((AddressBook.mk [("Alice", Record.init "Alice")]).delete "Alice").2
      = none ∧
    (AddressBook.mk []).delete "Bob" = (AddressBook.mk [], some Err.recordNotFound) := by
  refine ⟨?_, ?_, ?_⟩
  · exact (delete_exact_key (AddressBook.mk [("Alice", Record.init "Alice")])
      " Alice ").1 (by decide)
  · exact ((delete_exact_key (AddressBook.mk [("Alice", Record.init "Alice")])
      "Alice").2 (by decide)).1
  · exact (delete_exact_key (AddressBook.mk []) "Bob").1 (by decide)

/-- C7: after `add_record(Record(n))`, `find(n')` returns that record
for every `n'` that strips to the same string as `n` — the record is
keyed by its trimmed name and `find` trims its argument before the
lookup. -/
theorem add_find_roundtrip (b : AddressBook) (n n' : String)
    (h : pyStrip n' = pyStrip n) :
    (b.add_record (Record.init n)).find n' = some (Record.init n) := by
  show ((dictInsert (pyStrip n) (Record.init n) b.data).find?
    (fun kv => kv.1 = pyStrip n')).map Prod.snd = some (Record.init n)
  rw [h, find?_dictInsert]
  rfl

/-- Witness for C7: adding `Record("Alice")` to the empty book, then
looking up `" Alice "` (padded with spaces), returns the record. -/
theorem add_find_roundtrip_witness :
    ((AddressBook.mk []).add_record (Record.init "Alice")).find " Alice "
      = some (Record.init "Alice") :=
  add_find_roundtrip (AddressBook.mk []) "Alice" " Alice " (by decide)

/-- C8: adding `r1` and then `r2` with the same name value leaves
exactly one entry under that name, and that entry holds `r2`: the
second `add_record` silently overwrites the first, with no error path
(`add_record` is embedded as a total function). The hypothesis that the
keys of `b` are pairwise distinct is the dictionary invariant — a
Python `dict` cannot hold a duplicate key. -/
theorem add_record_overwrites (b : AddressBook) (r1 r2 : Record)
    (hk : (b.data.map Prod.fst).Nodup) (h : r1.name.value = r2.name.value) :
    ((b.add_record r1).add_record r2).data.countP
      (fun kv => kv.1 = r2.name.value) = 1 ∧
    ((b.add_record r1).add_record r2).data.find?
      (fun kv => kv.1 = r2.name.value) = some (r2.name.value, r2) ∧
    (∀ kv ∈ ((b.add_record r1).add_record r2).data,
      kv.1 = r2.name.value → kv.2 = r2) := by
  refine ⟨?_, ?_, ?_⟩
  · exact countP_dictInsert _ _ (nodupKeys_dictInsert _ _ hk)
  · exact find?_dictInsert _ _ _
  · intro kv hm hkey
    have := mem_dictInsert_key (nodupKeys_dictInsert _ _ hk) hm hkey
    rw [this]

/-- Witness for C8: adding `Record("Alice")` (no phones) and then an
`"Alice"` record holding phone `"1234567890"` leaves a single
`"Alice"` entry, holding the second record. -/
theorem add_record_overwrites_witness :
    (((AddressBook.mk []).add_record (Record.init "Alice")).add_record
      ⟨⟨"Alice"⟩, [⟨"1234567890"⟩]⟩).data.countP
      (fun kv => kv.1 = "Alice") = 1 ∧
    (((AddressBook.mk []).add_record (Record.init "Alice")).add_record
      ⟨⟨"Alice"⟩, [⟨"1234567890"⟩]⟩).data.find?
      (fun kv => kv.1 = "Alice")
      = some ("Alice", ⟨⟨"Alice"⟩, [⟨"1234567890"⟩]⟩) := by
  have h := add_record_overwrites (AddressBook.mk []) (Record.init "Alice")
    ⟨⟨"Alice"⟩, [⟨"1234567890"⟩]⟩ (by simp) (by decide)
  exact ⟨h.1, h.2.1⟩

/-- C9: `Record(name)` stores the stripped name and an empty phone
list, and rendering the fresh record gives the stripped name followed
by an empty semicolon-joined phone list. Construction succeeds for
every string, empty and whitespace-only names included (the embedding
is a total function). -/
theorem record_init_render (name : String) :
    (Record.init name).name.value = pyStrip name ∧
    (Record.init name).phones = [] ∧
    (Record.init name).render
      = "Contact name: " ++ pyStrip name ++ ", phones: " := by
  refine ⟨rfl, rfl, ?_⟩
  simp [Record.render, Record.init, String.intercalate]

/-! ### The phone pattern -/

theorem matchDigitsThenEnd_iff (k : Nat) (l : List Char) :
    matchDigitsThenEnd k l = true ↔
      (l.length = k ∧ ∀ c ∈ l, isPyDigit c = true) ∨
      (l.length = k + 1 ∧ (∀ c ∈ l.take k, isPyDigit c = true) ∧
        l.drop k = ['\n']) := by
  induction k generalizing l with
  | zero =>
    cases l with
    | nil => simp [matchDigitsThenEnd]
    | cons c rest =>
      cases rest with
      | nil => simp [matchDigitsThenEnd]
      | cons c2 rest2 => simp [matchDigitsThenEnd]
  | succ k ih =>
    cases l with
    | nil => simp [matchDigitsThenEnd]
    | cons c rest =>
      rw [show matchDigitsThenEnd (k + 1) (c :: rest)
          = (isPyDigit c && matchDigitsThenEnd k rest) from rfl,
        Bool.and_eq_true, ih]
      simp only [List.length_cons, List.take_succ_cons, List.drop_succ_cons,
        List.mem_cons, Nat.add_right_cancel_iff]
      constructor
      · rintro ⟨hc, ⟨hlen, hall⟩ | ⟨hlen, hall, hdrop⟩⟩
        · exact Or.inl ⟨hlen, fun x hx => by
            rcases hx with he | hm
            · exact he ▸ hc
            · exact hall x hm⟩
        · exact Or.inr ⟨hlen, fun x hx => by
            rcases hx with he | hm
            · exact he ▸ hc
            · exact hall x hm, hdrop⟩
      · rintro (⟨hlen, hall⟩ | ⟨hlen, hall, hdrop⟩)
        · exact ⟨hall c (Or.inl rfl),
            Or.inl ⟨hlen, fun x hx => hall x (Or.inr hx)⟩⟩
        · exact ⟨hall c (Or.inl rfl),
            Or.inr ⟨hlen, fun x hx => hall x (Or.inr hx), hdrop⟩⟩

/-- C1 counterexample: the claim says every string that is not exactly
10 ASCII digits — a trailing newline included — fails validation, yet
`Phone("1234567890\n")` (11 characters) succeeds, because Python's `$`
also matches just before a newline that ends the string. -/
theorem phone_accepts_trailing_newline :
    "1234567890\n".length ≠ 10 ∧
    Phone.init "1234567890\n" = Except.ok ⟨"1234567890\n"⟩ := by
  exact ⟨by decide, rfl⟩

/-- C1 (amended): `Phone(p)` succeeds (storing `p` unchanged) exactly
when `p` is 10 Unicode decimal digits optionally followed by one
trailing newline, and fails with `InvalidPhoneFormat` exactly
otherwise. -/
theorem phone_init_characterization (p : String) :
    (Phone.init p = Except.ok ⟨p⟩ ↔ tenDigitSpec p) ∧
    (Phone.init p = Except.error Err.invalidPhoneFormat ↔
      ¬ tenDigitSpec p) := by
  have hiff : phoneRegexMatch p = true ↔ tenDigitSpec p :=
    matchDigitsThenEnd_iff 10 p.data
  by_cases hm : phoneRegexMatch p
  · have hs := hiff.mp hm
    simp [Phone.init, hm, hs]
  · have hns : ¬ tenDigitSpec p := fun hs => hm (hiff.mpr hs)
    simp [Phone.init, hm, hns]

/-! ### Trimming -/

theorem dropWhile_self (p : Char → Bool) (l : List Char) :
    (l.dropWhile p).dropWhile p = l.dropWhile p := by
  induction l with
  | nil => rfl
  | cons a l ih =>
    by_cases h : p a
    · simp [List.dropWhile_cons, h, ih]
    · simp [List.dropWhile_cons, h]

theorem dropWhile_eq_self_head {p : Char → Bool} {a : Char} {l : List Char}
    (h : (a :: l).dropWhile p = a :: l) : p a = false := by
  by_cases hp : p a
  · rw [List.dropWhile_cons, if_pos hp] at h
    have hlen := congrArg List.length h
    have hle := (List.dropWhile_sublist (l := l) p).length_le
    simp only [List.length_cons] at hlen
    omega
  · simpa using hp

theorem stripChars_idem (l : List Char) :
    stripChars (stripChars l) = stripChars l := by
  have h1 : (stripChars l).dropWhile isPySpace = stripChars l := by
    cases hr : stripChars l with
    | nil => rfl
    | cons a r' =>
      obtain ⟨u, hu⟩ :=
        List.dropWhile_suffix (l := (l.dropWhile isPySpace).reverse) isPySpace
      have hm0 : (l.dropWhile isPySpace).reverse
          = u ++ (l.dropWhile isPySpace).reverse.dropWhile isPySpace := hu.symm
      have hm1 : l.dropWhile isPySpace
          = ((l.dropWhile isPySpace).reverse.dropWhile isPySpace).reverse
            ++ u.reverse := by
        have := congrArg List.reverse hm0
        simpa using this
      have hr' : ((l.dropWhile isPySpace).reverse.dropWhile isPySpace).reverse
          = a :: r' := hr
      have hm2 : l.dropWhile isPySpace = a :: (r' ++ u.reverse) := by
        rw [hm1, hr']
        simp
      have hds := dropWhile_self isPySpace l
      rw [hm2] at hds
      have hhead : isPySpace a = false := dropWhile_eq_self_head hds
      rw [List.dropWhile_cons, if_neg (by simp [hhead])]
  have h2 : (stripChars l).reverse.dropWhile isPySpace
      = (stripChars l).reverse := by
    unfold stripChars
    simp only [List.reverse_reverse]
    exact dropWhile_self isPySpace (l.dropWhile isPySpace).reverse
  calc stripChars (stripChars l)
      = (((stripChars l).dropWhile isPySpace).reverse.dropWhile
          isPySpace).reverse := rfl
    _ = ((stripChars l).reverse.dropWhile isPySpace).reverse := by rw [h1]
    _ = (stripChars l).reverse.reverse := by rw [h2]
    _ = stripChars l := List.reverse_reverse _

theorem pyStrip_idem (s : String) : pyStrip (pyStrip s) = pyStrip s :=
  congrArg String.mk (stripChars_idem s.data)

/-! ### Reachability -/

theorem name_add_phone (r : Record) (ph : String) :
    (r.add_phone ph).1.name = r.name := by
  unfold Record.add_phone
  cases Phone.init ph <;> rfl

theorem name_edit_phone (r : Record) (o n : String) :
    (r.edit_phone o n).1.name = r.name := rfl

theorem recordReachable_name {r : Record} (h : RecordReachable r) :
    pyStrip r.name.value = r.name.value := by
  induction h with
  | init name => exact pyStrip_idem name
  | addPhone ph h ih => rw [name_add_phone]; exact ih
  | removePhone ph h ih => exact ih
  | editPhone o n h ih => rw [name_edit_phone]; exact ih

/-- C10: in every book reachable from the empty book through the public
API (`add_record` with API-built records, `delete`; `find` does not
mutate), every stored entry is keyed exactly by its record's own name
value, and that key is a trimmed string (trimming it again changes
nothing). -/
theorem reachable_key_consistency (b : AddressBook) (h : BookReachable b) :
    ∀ kv ∈ b.data, kv.2.name.value = kv.1 ∧ pyStrip kv.1 = kv.1 := by
  induction h with
  | empty => intro kv hm; simp at hm
  | addRecord hb hr ih =>
    intro kv hm
    rcases mem_dictInsert hm with he | hmem
    · rw [he]
      exact ⟨rfl, recordReachable_name hr⟩
    · exact ih kv hmem
  | delete name hb ih =>
    intro kv hm
    simp only [AddressBook.delete] at hm
    split at hm
    · exact ih kv (List.mem_filter.mp hm).1
    · exact ih kv hm

/-- Witness for C10: the book obtained by adding `Record(" Alice ")` to
the empty book keys that record under `"Alice"`, its own trimmed name. -/
theorem reachable_key_consistency_witness :
    (Record.init " Alice ").name.value = "Alice" ∧
    pyStrip "Alice" = "Alice" := by
  have h := reachable_key_consistency
    ((AddressBook.mk []).add_record (Record.init " Alice "))
    (BookReachable.addRecord BookReachable.empty
      (RecordReachable.init " Alice "))
    ("Alice", Record.init " Alice ") (by decide)
  exact ⟨h.1, h.2⟩

end AB
